import Mathlib

/-!
Shallow embedding of the `fcache` loading file cache (Semior001/fcache):
the `LoadingCache` orchestration layer over a pluggable `Store` backend,
its hit/miss logic, stats counters, TTL injection and extension, the
invalidation sweep, and the object-storage key prefixing.

Go machine integers (int64 counters, durations, nanosecond timestamps) are
modelled as `Int`; byte streams as `List Nat`; Go's `map[string]string`
metadata as an optional association list (`none` models a nil map);
fallible calls return `Except`/`Option`.
-/

namespace Fcache

/-- Instants and durations, in nanoseconds counted from Go's zero time
(`time.Time{}` = January 1, year 1); the zero value of `time.Time` is `0`. -/
abbrev Time := Int

/-- A metadata string value: either a timestamp encoded in `metaTimeFormat`
(RFC3339Nano, an injective encoding that `time.Parse` inverts), or any other
string, which fails `time.Parse`.  `MVal.str ""` is Go's zero string. -/
inductive MVal where
  | time (t : Time)
  | str (s : String)
deriving DecidableEq, Repr

/-- Formatting a time in `metaTimeFormat` (`tm.Format(metaTimeFormat)`). -/
def formatTime (t : Time) : MVal := .time t

/-- Result value of Go's `time.Parse(metaTimeFormat, v)`: `some t` on success,
`none` when parsing fails. -/
def parseTime : MVal → Option Time
  | .time t => some t
  | .str _ => none

/-- Go's `time.Parse` returns the zero time alongside a parse error; this is
the time value the caller holds after the call, error or not. -/
def parseTimeOrZero (v : MVal) : Time := (parseTime v).getD 0

/-- Association-list read, mirroring a Go map read `m[k]` (second return
value `ok` is `Option.isSome`). -/
def getKey : List (String × MVal) → String → Option MVal
  | [], _ => none
  | (k', v') :: rest, k => if k' = k then some v' else getKey rest k

/-- Association-list write, mirroring a Go map write `m[k] = v`. -/
def setKey : List (String × MVal) → String → MVal → List (String × MVal)
  | [], k, v => [(k, v)]
  | (k', v') :: rest, k, v =>
    if k' = k then (k, v) :: rest else (k', v') :: setKey rest k v

/-- Go errors, with `fmt.Errorf("...: %w", err)` wrapping preserved so that
`errors.Is(err, ErrNotFound)` can see through the chain. -/
inductive GoErr where
  | notFound
  | base (s : String)
  | wrap (ctx : String) (e : GoErr)
deriving DecidableEq, Repr

/-- The check `errors.Is(err, ErrNotFound)`. -/
def GoErr.isNotFound : GoErr → Bool
  | .notFound => true
  | .base _ => false
  | .wrap _ e => e.isNotFound

/-- Byte content of a file stream. -/
abbrev Bytes := List Nat

/-- The `FileMeta` record.  `meta : none` models a nil `map[string]string`. -/
structure FileMeta where
  name : String := ""
  mime : String := ""
  size : Int := 0
  meta : Option (List (String × MVal)) := none
  key : String := ""
  createdAt : Time := 0
deriving DecidableEq, Repr

/-- `meta.Meta[metaInvalidateAtKey]` read through a possibly-nil map. -/
def FileMeta.invalidateAt (m : FileMeta) : Option MVal :=
  match m.meta with
  | none => none
  | some l => getKey l "_invalidate_at"

/-- Parameters of `Store.GetURL`. -/
structure GetURLParams where
  filename : String := ""
  expires : Int := 0
deriving DecidableEq, Repr

/-- Responses of the backend `Store` during one orchestration call.  Each
interface method is invoked at most once per call path, so a fixed response
function per method faithfully captures one call's interaction. -/
structure StoreModel where
  metaR : String → Except GoErr FileMeta
  getR : String → Except GoErr Bytes
  getURLR : String → GetURLParams → Except GoErr String
  putR : String → FileMeta → Bytes → Option GoErr
  updateMetaR : String → FileMeta → Option GoErr
  removeR : String → Option GoErr
  listR : Except GoErr (List FileMeta)

/-- A `GetRequest`: key, TTL, and the loader's (one-shot, deterministic)
response `(content stream, FileMeta, error)`. -/
structure GetRequest where
  key : String
  ttl : Int
  loader : Except GoErr (Bytes × FileMeta)

/-- Cache `Options` fields relevant to the orchestration logic. -/
structure Options where
  invalidatePeriod : Int := 0
  extendTTL : Bool := false
deriving DecidableEq, Repr

/-- Outcomes of the OS-level operations on the miss path of `GetFile`:
`os.CreateTemp`, `tmp.Seek`, and `originalRd.Close`. -/
structure OsEnv where
  tmpErr : Option GoErr := none
  seekErr : Option GoErr := none
  closeErr : Option GoErr := none

/-- Deltas applied to the `CacheStats` counters by one call (each Go
`atomic.AddInt64` adds 1 to one field). -/
structure Counters where
  hits : Int := 0
  misses : Int := 0
  errors : Int := 0
deriving DecidableEq, Repr

/-- One recorded invocation of `Store.Put` with its arguments. -/
structure PutCall where
  key : String
  meta : FileMeta
  content : Bytes
deriving DecidableEq, Repr

/-- The scratch temp file on the miss path: the tee target plus its read
cursor.  `Store.Put` drains the `TeeReader`, so after a successful put the
file holds the loader's bytes with the cursor at the end; `Seek(0)` rewinds. -/
structure TempFile where
  contents : Bytes
  pos : Nat
deriving DecidableEq, Repr

/-- Bytes the caller can read from the returned temp-file stream. -/
def TempFile.readAll (f : TempFile) : Bytes := f.contents.drop f.pos

/-- Result of one `LoadingCache.GetFile` call: the returned values plus the
observable effects (counter deltas, loader invocations, backend writes). -/
structure FileOutcome where
  rd : Option Bytes := none
  meta : FileMeta := {}
  err : Option GoErr := none
  delta : Counters := {}
  loaderCalls : Nat := 0
  puts : List PutCall := []
  updates : List (String × FileMeta) := []
deriving Repr

/-- Result of one `LoadingCache.GetURL` call. -/
structure URLOutcome where
  url : String := ""
  meta : FileMeta := {}
  err : Option GoErr := none
  delta : Counters := {}
  loaderCalls : Nat := 0
  puts : List PutCall := []
  updates : List (String × FileMeta) := []
deriving Repr

/-- Result of `LoadingCache.extendTTL`. -/
structure ExtendOut where
  meta : FileMeta
  err : Option GoErr
  updates : List (String × FileMeta)
deriving Repr

/-- `LoadingCache.extendTTL` (fcache.go).  Mirrors the source line by line:
when `ExtendTTL` is off, return unchanged; otherwise ensure the map is
non-nil, read `v, ok := meta.Meta[metaInvalidateAtKey]`, seed `now+ttl` when
`!ok`, then unconditionally `time.Parse(metaTimeFormat, v)` (with `v` the
zero string when `!ok`), and on success advance the parsed deadline by `ttl`
and persist via `Store.UpdateMeta`. -/
def extendTTL (opts : Options) (st : StoreModel) (now : Time)
    (key : String) (ttl : Int) (meta : FileMeta) : ExtendOut :=
  if !opts.extendTTL then ⟨meta, none, []⟩
  else
    let m0 := meta.meta.getD []
    let vOpt := getKey m0 "_invalidate_at"
    let m1 :=
      if vOpt.isNone then setKey m0 "_invalidate_at" (formatTime (now + ttl)) else m0
    let v := vOpt.getD (.str "")
    match parseTime v with
    | none =>
      ⟨{ meta with meta := some m1 },
        some (.wrap "parse invalidate_at time" (.base "time parse")), []⟩
    | some tm =>
      let m2 := setKey m1 "_invalidate_at" (formatTime (tm + ttl))
      let meta2 := { meta with meta := some m2 }
      match st.updateMetaR key meta2 with
      | some e => ⟨meta2, some (.wrap "update file meta" e), [(key, meta2)]⟩
      | none => ⟨meta2, none, [(key, meta2)]⟩

/-- `LoadingCache.GetFile` (fcache.go).  Hit: `Hits`+1, fetch the content
stream, run `extendTTL`.  Unexpected `Meta` error: `Errors`+1, surface.
Miss (`errors.Is(err, ErrNotFound)`): `Misses`+1, invoke the loader once,
tee its stream into a temp file while `Store.Put` drains it, inject
`_invalidate_at = now + req.TTL` into the metadata before the put, rewind
the temp file and hand it to the caller. -/
def GetFile (opts : Options) (st : StoreModel) (env : OsEnv) (now : Time)
    (req : GetRequest) : FileOutcome :=
  match st.metaR req.key with
  | .ok meta =>
    match st.getR req.key with
    | .error e =>
      { meta := meta, err := some (.wrap "get file reader" e),
        delta := { hits := 1, errors := 1 } }
    | .ok content =>
      let ext := extendTTL opts st now req.key req.ttl meta
      match ext.err with
      | some e =>
        { rd := some content, meta := ext.meta,
          err := some (.wrap "extend file TTL" e),
          delta := { hits := 1 }, updates := ext.updates }
      | none =>
        { rd := some content, meta := ext.meta, delta := { hits := 1 },
          updates := ext.updates }
  | .error e =>
    if !e.isNotFound then
      { err := some (.wrap "get file from storage" e), delta := { errors := 1 } }
    else
      match req.loader with
      | .error le =>
        { err := some (.wrap "loader returned error" le),
          delta := { misses := 1 }, loaderCalls := 1 }
      | .ok (content, lmeta) =>
        match env.tmpErr with
        | some te =>
          { err := some (.wrap "create temp file" te),
            delta := { misses := 1 }, loaderCalls := 1 }
        | none =>
          let m0 := lmeta.meta.getD []
          let meta :=
            { lmeta with
              meta := some (setKey m0 "_invalidate_at" (formatTime (now + req.ttl))) }
          match st.putR req.key meta content with
          | some pe =>
            -- the tee wrote whatever Put consumed; no rewind happened, so the
            -- returned temp-file stream reads from its current end position
            { rd := some (TempFile.readAll ⟨content, content.length⟩),
              meta := meta, err := some (.wrap "put file into storage" pe),
              delta := { misses := 1 }, loaderCalls := 1,
              puts := [⟨req.key, meta, content⟩] }
          | none =>
            match env.seekErr with
            | some se =>
              { rd := some (TempFile.readAll ⟨content, content.length⟩),
                meta := meta,
                err := some (.wrap "reset temp file caret to file start" se),
                delta := { misses := 1 }, loaderCalls := 1,
                puts := [⟨req.key, meta, content⟩] }
            | none =>
              match env.closeErr with
              | some ce =>
                { rd := some (TempFile.readAll ⟨content, 0⟩), meta := meta,
                  err := some (.wrap "close reader, received from loader" ce),
                  delta := { misses := 1 }, loaderCalls := 1,
                  puts := [⟨req.key, meta, content⟩] }
              | none =>
                { rd := some (TempFile.readAll ⟨content, 0⟩), meta := meta,
                  delta := { misses := 1 }, loaderCalls := 1,
                  puts := [⟨req.key, meta, content⟩] }

/-- `LoadingCache.GetURL` (fcache.go).  Same branching as `GetFile`, but the
final step asks the store for a presigned URL, the loader's stream is handed
to `Put` directly, and the loader- and put-failure paths also increment
`Errors`. -/
def GetURL (opts : Options) (st : StoreModel) (now : Time)
    (req : GetRequest) (params : GetURLParams) : URLOutcome :=
  match st.metaR req.key with
  | .ok meta =>
    let ext := extendTTL opts st now req.key req.ttl meta
    match ext.err with
    | some e =>
      { meta := ext.meta, err := some (.wrap "extend file TTL" e),
        delta := { hits := 1 }, updates := ext.updates }
    | none =>
      match st.getURLR req.key params with
      | .error e =>
        { err := some (.wrap "get url from storage" e),
          delta := { hits := 1, errors := 1 }, updates := ext.updates }
      | .ok u =>
        { url := u, meta := ext.meta, delta := { hits := 1 },
          updates := ext.updates }
  | .error e =>
    if !e.isNotFound then
      { err := some (.wrap "get file meta from storage" e),
        delta := { errors := 1 } }
    else
      match req.loader with
      | .error le =>
        { err := some (.wrap "loader returned error" le),
          delta := { misses := 1, errors := 1 }, loaderCalls := 1 }
      | .ok (content, lmeta) =>
        let m0 := lmeta.meta.getD []
        let meta :=
          { lmeta with
            meta := some (setKey m0 "_invalidate_at" (formatTime (now + req.ttl))) }
        match st.putR req.key meta content with
        | some pe =>
          { err := some (.wrap "put file into storage" pe),
            delta := { misses := 1, errors := 1 }, loaderCalls := 1,
            puts := [⟨req.key, meta, content⟩] }
        | none =>
          match st.getURLR req.key params with
          | .error e =>
            { err := some (.wrap "get url from storage" e),
              delta := { misses := 1, errors := 1 }, loaderCalls := 1,
              puts := [⟨req.key, meta, content⟩] }
          | .ok u =>
            { url := u, meta := meta, delta := { misses := 1 },
              loaderCalls := 1, puts := [⟨req.key, meta, content⟩] }

/-- The parse-failure error appended by the sweep
(`fmt.Errorf("parse invalidate_at time: %w", err)`). -/
def sweepParseErr : GoErr := .wrap "parse invalidate_at time" (.base "time parse")

/-- Accumulated state of one `LoadingCache.Invalidate` pass: the returned
count, the keys passed to `Store.Remove` (in order), the keys actually
removed, and the `multierror` contents. -/
structure SweepOutcome where
  invalidated : Int := 0
  removeCalls : List String := []
  removed : List String := []
  errs : List GoErr := []
  listErr : Option GoErr := none
deriving Repr

/-- One iteration of the loop body of `LoadingCache.Invalidate` over a listed
`FileMeta`: skip nil maps and maps without `_invalidate_at`; record a parse
error on failure (Go then holds the zero time); call `Store.Remove` whenever
the held deadline is before `now`, counting only successful removals.  On a
remove failure the source rebuilds the multierror from the remove error
alone (`multierror.Append(err, ...)`), dropping what was accumulated: kept
as-is. -/
def sweepStep (st : StoreModel) (now : Time) (acc : SweepOutcome)
    (file : FileMeta) : SweepOutcome :=
  match file.meta with
  | none => acc
  | some m =>
    match getKey m "_invalidate_at" with
    | none => acc
    | some v =>
      let acc :=
        if (parseTime v).isNone then { acc with errs := acc.errs ++ [sweepParseErr] }
        else acc
      if parseTimeOrZero v < now then
        match st.removeR file.key with
        | some e =>
          { acc with
            removeCalls := acc.removeCalls ++ [file.key]
            errs := [e, .wrap ("remove file under key " ++ file.key) e] }
        | none =>
          { acc with
            removeCalls := acc.removeCalls ++ [file.key]
            removed := acc.removed ++ [file.key]
            invalidated := acc.invalidated + 1 }
      else acc

/-- `LoadingCache.Invalidate` (fcache.go): list every stored object and run
`sweepStep` over the listing. -/
def Invalidate (st : StoreModel) (now : Time) : SweepOutcome :=
  match st.listR with
  | .error e => { listErr := some (.wrap "list objects from store" e) }
  | .ok files => files.foldl (sweepStep st now) {}

/-- The decision of one sweep iteration to call `Store.Remove`: the file has
a non-nil metadata map holding `_invalidate_at`, and the time Go holds after
`time.Parse` (the parsed deadline, or the zero time on failure) is before
`now`. -/
def sweepRemoves (now : Time) (file : FileMeta) : Bool :=
  match file.meta with
  | none => false
  | some m =>
    match getKey m "_invalidate_at" with
    | none => false
    | some v => parseTimeOrZero v < now

/-- Whether one sweep iteration appends a parse error for this file. -/
def sweepParseFails (file : FileMeta) : Bool :=
  match file.meta with
  | none => false
  | some m =>
    match getKey m "_invalidate_at" with
    | none => false
    | some v => (parseTime v).isNone

/-- `S3.key` (s3.go): backend key for a cache key under the configured
bucket-level prefix `pfx`. -/
def s3key (pfx k : String) : String :=
  if pfx = "" then k else pfx ++ "!!" ++ k

/-- Split a character list at the non-overlapping occurrences of the `"!!"`
separator, scanning left to right as Go's `strings.Split` does. -/
def splitSep : List Char → List (List Char)
  | [] => [[]]
  | [c] => [[c]]
  | c1 :: c2 :: rest =>
    if c1 = '!' ∧ c2 = '!' then [] :: splitSep rest
    else
      match splitSep (c2 :: rest) with
      | [] => [[c1]]
      | a :: as => (c1 :: a) :: as

/-- Modelled from the spec: the object-storage adapter of the current
`Store` interface applies the inverse key transform when reporting keys back
from `Keys`/`List`; that adapter is not under src (only its tests are, e.g.
`TestS3_Keys`, which expects `prefix!!key-1` to be reported as `key-1`).
Per the spec, keys are reported with `prefix + separator` stripped, and a
listed key in which the separator does not appear exactly once is returned
unmodified. -/
def s3unkey (pfx k : String) : String :=
  if pfx = "" then k
  else
    match splitSep k.data with
    | [_, b] => String.mk b
    | _ => k

/-- Modelled from the spec: `S3.Keys` of the current-interface adapter (not
under src) reports every listed backend key through the inverse transform. -/
def s3Keys (pfx : String) (backendKeys : List String) : List String :=
  backendKeys.map (s3unkey pfx)

/-! ### Sweep lemmas -/

/-- One sweep iteration, when every `Store.Remove` succeeds, appends to each
accumulator field exactly what `sweepRemoves`/`sweepParseFails` dictate. -/
theorem sweepStep_ok (st : StoreModel) (now : Time)
    (hrm : ∀ k, st.removeR k = none) (acc : SweepOutcome) (f : FileMeta) :
    sweepStep st now acc f =
      { acc with
        invalidated := acc.invalidated + (if sweepRemoves now f then 1 else 0)
        removeCalls := acc.removeCalls ++ (if sweepRemoves now f then [f.key] else [])
        removed := acc.removed ++ (if sweepRemoves now f then [f.key] else [])
        errs := acc.errs ++ (if sweepParseFails f then [sweepParseErr] else []) } := by
  cases hm : f.meta with
  | none => simp [sweepStep, sweepRemoves, sweepParseFails, hm]
  | some m =>
    cases hv : getKey m "_invalidate_at" with
    | none => simp [sweepStep, sweepRemoves, sweepParseFails, hm, hv]
    | some v =>
      cases hp : parseTime v with
      | some t =>
        by_cases hlt : t < now <;>
          simp [sweepStep, sweepRemoves, sweepParseFails, hm, hv, hp,
            parseTimeOrZero, hlt, hrm]
      | none =>
        by_cases hlt : (0 : Time) < now <;>
          simp [sweepStep, sweepRemoves, sweepParseFails, hm, hv, hp,
            parseTimeOrZero, hlt, hrm]

/-- Folding the sweep body over a listing, when every `Store.Remove`
succeeds, removes exactly the files selected by `sweepRemoves` and records
one parse error per `sweepParseFails` file. -/
theorem sweepFold_ok (st : StoreModel) (now : Time)
    (hrm : ∀ k, st.removeR k = none) (files : List FileMeta) (acc : SweepOutcome) :
    files.foldl (sweepStep st now) acc =
      { acc with
        invalidated :=
          acc.invalidated + (((files.filter (sweepRemoves now)).length : Int))
        removeCalls :=
          acc.removeCalls ++ (files.filter (sweepRemoves now)).map FileMeta.key
        removed := acc.removed ++ (files.filter (sweepRemoves now)).map FileMeta.key
        errs := acc.errs ++ (files.filter sweepParseFails).map fun _ => sweepParseErr } := by
  induction files generalizing acc with
  | nil => simp
  | cons f fs ih =>
    rw [List.foldl_cons, sweepStep_ok st now hrm, ih]
    cases hR : sweepRemoves now f <;> cases hP : sweepParseFails f <;>
      simp [List.filter_cons, hR, hP, List.append_assoc] <;> omega

/-- One sweep iteration calls `Store.Remove` (successfully or not) exactly
when `sweepRemoves` holds. -/
theorem sweepStep_calls (st : StoreModel) (now : Time) (acc : SweepOutcome)
    (f : FileMeta) :
    (sweepStep st now acc f).removeCalls =
      acc.removeCalls ++ (if sweepRemoves now f then [f.key] else []) := by
  cases hm : f.meta with
  | none => simp [sweepStep, sweepRemoves, hm]
  | some m =>
    cases hv : getKey m "_invalidate_at" with
    | none => simp [sweepStep, sweepRemoves, hm, hv]
    | some v =>
      by_cases hlt : parseTimeOrZero v < now <;>
        cases hr : st.removeR f.key <;> cases hn : (parseTime v).isNone <;>
          simp [sweepStep, sweepRemoves, hm, hv, hlt, hr, hn]

/-- Folded version of `sweepStep_calls`. -/
theorem sweepFold_calls (st : StoreModel) (now : Time) (files : List FileMeta)
    (acc : SweepOutcome) :
    (files.foldl (sweepStep st now) acc).removeCalls =
      acc.removeCalls ++ (files.filter (sweepRemoves now)).map FileMeta.key := by
  induction files generalizing acc with
  | nil => simp
  | cons f fs ih =>
    rw [List.foldl_cons, ih, sweepStep_calls]
    cases hR : sweepRemoves now f <;> simp [List.filter_cons, hR]

/-- One sweep iteration preserves the invariant that the returned count
equals the number of keys actually removed. -/
theorem sweepStep_count (st : StoreModel) (now : Time) (acc : SweepOutcome)
    (f : FileMeta) (h : acc.invalidated = (acc.removed.length : Int)) :
    (sweepStep st now acc f).invalidated =
      ((sweepStep st now acc f).removed.length : Int) := by
  cases hm : f.meta with
  | none => simpa [sweepStep, hm] using h
  | some m =>
    cases hv : getKey m "_invalidate_at" with
    | none => simpa [sweepStep, hm, hv] using h
    | some v =>
      by_cases hlt : parseTimeOrZero v < now <;>
        cases hr : st.removeR f.key <;> cases hn : (parseTime v).isNone <;>
          simp [sweepStep, hm, hv, hlt, hr, hn, h]

/-- Whatever the backend remove responses, the sweep returns exactly the
number of objects it actually removed. -/
theorem invalidate_count_eq (st : StoreModel) (now : Time) :
    (Invalidate st now).invalidated = ((Invalidate st now).removed.length : Int) := by
  unfold Invalidate
  cases st.listR with
  | error e => rfl
  | ok files =>
    have gen : ∀ (fs : List FileMeta) (acc : SweepOutcome),
        acc.invalidated = (acc.removed.length : Int) →
        (fs.foldl (sweepStep st now) acc).invalidated =
          ((fs.foldl (sweepStep st now) acc).removed.length : Int) := by
      intro fs
      induction fs with
      | nil => intro acc h; exact h
      | cons f fs ih =>
        intro acc h
        rw [List.foldl_cons]
        exact ih _ (sweepStep_count st now acc f h)
    exact gen files {} rfl

/-! ### Sweep claims -/

/-- A stored file carrying `_invalidate_at` metadata `v` under key `k`. -/
def fileT (k : String) (v : MVal) : FileMeta :=
  { key := k, meta := some [("_invalidate_at", v)] }

/-- Sample listing: deadlines 40 and 10 (expired at `now = 100`), deadline
200 (not expired), and one file without the expiration key. -/
def sweepFiles : List FileMeta :=
  [fileT "key" (.time 40), fileT "key-1" (.time 200), fileT "key-2" (.time 10),
    { key := "key-3" }]

/-- A backend whose listing is `sweepFiles` and whose other operations all
succeed trivially. -/
def stSweep : StoreModel :=
  { metaR := fun _ => .error .notFound
    getR := fun _ => .ok []
    getURLR := fun _ _ => .ok "file-url"
    putR := fun _ _ _ => none
    updateMetaR := fun _ _ => none
    removeR := fun _ => none
    listR := .ok sweepFiles }

/-- C3: when the listing succeeds and every `Store.Remove` succeeds, the
sweep removes exactly the files selected by `sweepRemoves`; a file whose
`_invalidate_at` metadata holds time `T` is selected iff `T < t` (removed
when `t > T`, kept when `t ≤ T`); and the returned count equals the number
of objects actually removed. -/
theorem invalidate_expiration (st : StoreModel) (now : Time)
    (files : List FileMeta) (hl : st.listR = .ok files)
    (hrm : ∀ k, st.removeR k = none) :
    (Invalidate st now).removed =
      (files.filter (sweepRemoves now)).map FileMeta.key ∧
    (∀ f : FileMeta, ∀ T : Time, f.invalidateAt = some (.time T) →
      (sweepRemoves now f = true ↔ T < now)) ∧
    (Invalidate st now).invalidated = ((Invalidate st now).removed.length : Int) := by
  have h0 : Invalidate st now = files.foldl (sweepStep st now) {} := by
    unfold Invalidate; rw [hl]
  refine ⟨?_, ?_, invalidate_count_eq st now⟩
  · rw [h0, sweepFold_ok st now hrm]; simp
  · intro f T hT
    rcases hm : f.meta with _ | m
    · simp [FileMeta.invalidateAt, hm] at hT
    · have hg : getKey m "_invalidate_at" = some (.time T) := by
        simpa [FileMeta.invalidateAt, hm] using hT
      simp [sweepRemoves, hm, hg, parseTimeOrZero, parseTime]

/-- Witness for C3 at the sample listing and sweep instant 100: the two
expired files are removed, in listing order, and counted. -/
theorem invalidate_expiration_witness :
    (stSweep.listR = .ok sweepFiles ∧ (∀ k, stSweep.removeR k = none)) ∧
    ((Invalidate stSweep 100).removed =
        (sweepFiles.filter (sweepRemoves 100)).map FileMeta.key ∧
      (∀ f : FileMeta, ∀ T : Time, f.invalidateAt = some (.time T) →
        (sweepRemoves 100 f = true ↔ T < 100)) ∧
      (Invalidate stSweep 100).invalidated =
        (((Invalidate stSweep 100).removed.length : Int))) ∧
    (Invalidate stSweep 100).removed = ["key", "key-2"] ∧
    (Invalidate stSweep 100).invalidated = 2 :=
  ⟨⟨rfl, fun _ => rfl⟩,
    invalidate_expiration stSweep 100 sweepFiles rfl (fun _ => rfl),
    by decide, by decide⟩

/-- C9: the keys the sweep passes to `Store.Remove` are exactly those of the
listed files selected by `sweepRemoves`, and a file whose metadata mapping
is nil or lacks `_invalidate_at` (i.e. `invalidateAt = none`) is never
selected, whatever the sweep instant. -/
theorem invalidate_skips_unmarked (st : StoreModel) (now : Time)
    (files : List FileMeta) (hl : st.listR = .ok files) :
    (Invalidate st now).removeCalls =
      (files.filter (sweepRemoves now)).map FileMeta.key ∧
    ∀ f : FileMeta, f.invalidateAt = none → sweepRemoves now f = false := by
  have h0 : Invalidate st now = files.foldl (sweepStep st now) {} := by
    unfold Invalidate; rw [hl]
  constructor
  · rw [h0, sweepFold_calls]; rfl
  · intro f hf
    rcases hm : f.meta with _ | m
    · simp [sweepRemoves, hm]
    · have hg : getKey m "_invalidate_at" = none := by
        simpa [FileMeta.invalidateAt, hm] using hf
      simp [sweepRemoves, hm, hg]

/-- Witness for C9: with the sample listing, `Store.Remove` is called only
for the two expired marked files, never for the unmarked `key-3`. -/
theorem invalidate_skips_unmarked_witness :
    stSweep.listR = .ok sweepFiles ∧
    ((Invalidate stSweep 100).removeCalls =
        (sweepFiles.filter (sweepRemoves 100)).map FileMeta.key ∧
      ∀ f : FileMeta, f.invalidateAt = none → sweepRemoves 100 f = false) ∧
    (Invalidate stSweep 100).removeCalls = ["key", "key-2"] :=
  ⟨rfl, invalidate_skips_unmarked stSweep 100 sweepFiles rfl, by decide⟩

/-- C10: a listed file whose `_invalidate_at` value fails to parse is
removed by a sweep at any `now > 0` (Go holds the zero time after the failed
parse) and counted, and the parse error is recorded in the aggregated
error, provided every `Store.Remove` succeeds. -/
theorem invalidate_unparsable_removed (st : StoreModel) (now : Time)
    (files : List FileMeta) (f : FileMeta) (s : String)
    (hl : st.listR = .ok files) (hrm : ∀ k, st.removeR k = none)
    (hf : f ∈ files) (hv : f.invalidateAt = some (.str s)) (hnow : 0 < now) :
    f.key ∈ (Invalidate st now).removed ∧
    sweepParseErr ∈ (Invalidate st now).errs ∧
    (Invalidate st now).invalidated = ((Invalidate st now).removed.length : Int) := by
  have h0 : Invalidate st now = files.foldl (sweepStep st now) {} := by
    unfold Invalidate; rw [hl]
  have hkey : sweepRemoves now f = true ∧ sweepParseFails f = true := by
    rcases hm : f.meta with _ | m
    · simp [FileMeta.invalidateAt, hm] at hv
    · have hg : getKey m "_invalidate_at" = some (.str s) := by
        simpa [FileMeta.invalidateAt, hm] using hv
      constructor <;>
        simp [sweepRemoves, sweepParseFails, hm, hg, parseTimeOrZero, parseTime, hnow]
  refine ⟨?_, ?_, invalidate_count_eq st now⟩
  · rw [h0, sweepFold_ok st now hrm]
    simp only [List.nil_append, List.mem_map]
    exact ⟨f, List.mem_filter.mpr ⟨hf, hkey.1⟩, rfl⟩
  · rw [h0, sweepFold_ok st now hrm]
    simp only [List.nil_append, List.mem_map]
    exact ⟨f, List.mem_filter.mpr ⟨hf, hkey.2⟩, trivial⟩

/-- Listing holding one file whose expiration value cannot be parsed. -/
def sweepFilesBad : List FileMeta := [fileT "bad" (.str "not-a-timestamp")]

/-- Witness for C10: the unparsable file is removed and counted, and the
parse error is in the aggregate. -/
theorem invalidate_unparsable_removed_witness :
    ({ stSweep with listR := .ok sweepFilesBad }.listR = .ok sweepFilesBad ∧
      (∀ k, { stSweep with listR := .ok sweepFilesBad }.removeR k = none) ∧
      fileT "bad" (.str "not-a-timestamp") ∈ sweepFilesBad ∧
      (fileT "bad" (.str "not-a-timestamp")).invalidateAt =
        some (.str "not-a-timestamp") ∧
      (0 : Time) < 100) ∧
    ((fileT "bad" (.str "not-a-timestamp")).key ∈
        (Invalidate { stSweep with listR := .ok sweepFilesBad } 100).removed ∧
      sweepParseErr ∈ (Invalidate { stSweep with listR := .ok sweepFilesBad } 100).errs ∧
      (Invalidate { stSweep with listR := .ok sweepFilesBad } 100).invalidated =
        (((Invalidate { stSweep with listR := .ok sweepFilesBad } 100).removed.length : Int))) :=
  ⟨⟨rfl, fun _ => rfl, by decide, by decide, by decide⟩,
    invalidate_unparsable_removed _ 100 sweepFilesBad _ "not-a-timestamp" rfl
      (fun _ => rfl) (by decide) (by decide) (by decide)⟩

/-! ### GetFile / GetURL fixtures -/

/-- Sample loader metadata, with a nil auxiliary map. -/
def metaA : FileMeta := { name := "a.txt", mime := "text/plain", size := 17, key := "key" }

/-- A backend on which every operation succeeds and `Meta` finds `metaA`. -/
def stHit : StoreModel :=
  { metaR := fun _ => .ok metaA
    getR := fun _ => .ok [104, 105]
    getURLR := fun _ _ => .ok "file-url"
    putR := fun _ _ _ => none
    updateMetaR := fun _ _ => none
    removeR := fun _ => none
    listR := .ok [] }

/-- A backend on which `Meta` reports the key absent. -/
def stMiss : StoreModel := { stHit with metaR := fun _ => .error .notFound }

/-- A backend on which `Meta` fails with an unexpected error. -/
def stDown : StoreModel := { stHit with metaR := fun _ => .error (.base "boom") }

/-- Sample request: key `key`, TTL 100, loader producing two bytes and `metaA`. -/
def reqA : GetRequest :=
  { key := "key", ttl := 100, loader := .ok ([104, 105], metaA) }

/-! ### Hit/miss counter claims -/

/-- C1: a `GetFile` call on a key the backend reports absent (`Meta` returns
NotFound) adds 1 to Misses and 0 to Hits; a call on a key the backend
reports present adds 1 to Hits and 0 to Misses. -/
theorem getFile_hit_miss_counters (opts : Options) (st : StoreModel)
    (env : OsEnv) (now : Time) (req : GetRequest) :
    (∀ e : GoErr, st.metaR req.key = .error e → e.isNotFound = true →
      (GetFile opts st env now req).delta.misses = 1 ∧
      (GetFile opts st env now req).delta.hits = 0) ∧
    (∀ m : FileMeta, st.metaR req.key = .ok m →
      (GetFile opts st env now req).delta.hits = 1 ∧
      (GetFile opts st env now req).delta.misses = 0) := by
  constructor
  · intro e he hnf
    unfold GetFile
    simp only [he, hnf, Bool.not_true, Bool.false_eq_true, if_false]
    constructor <;> (repeat' split) <;> rfl
  · intro m hm
    unfold GetFile
    simp only [hm]
    constructor <;> (repeat' split) <;> rfl

/-- Witness for C1 at concrete backends: a miss on `stMiss`, a hit on `stHit`. -/
theorem getFile_hit_miss_counters_witness :
    (stMiss.metaR "key" = .error .notFound ∧ GoErr.isNotFound .notFound = true ∧
      (GetFile {} stMiss {} 0 reqA).delta.misses = 1 ∧
      (GetFile {} stMiss {} 0 reqA).delta.hits = 0) ∧
    (stHit.metaR "key" = .ok metaA ∧
      (GetFile {} stHit {} 0 reqA).delta.hits = 1 ∧
      (GetFile {} stHit {} 0 reqA).delta.misses = 0) :=
  ⟨⟨rfl, rfl, (getFile_hit_miss_counters {} stMiss {} 0 reqA).1 .notFound rfl rfl⟩,
    ⟨rfl, (getFile_hit_miss_counters {} stHit {} 0 reqA).2 metaA rfl⟩⟩

/-- C6: the loader is consulted exactly once on a miss and never otherwise:
on a hit neither `GetFile` nor `GetURL` invokes it, and on an unexpected
(non-NotFound) `Meta` error the error is surfaced with `Errors` incremented
and the loader is not reached. -/
theorem loader_only_on_miss (opts : Options) (st : StoreModel) (env : OsEnv)
    (now : Time) (req : GetRequest) (params : GetURLParams) :
    (∀ m : FileMeta, st.metaR req.key = .ok m →
      (GetFile opts st env now req).loaderCalls = 0 ∧
      (GetURL opts st now req params).loaderCalls = 0) ∧
    (∀ e : GoErr, st.metaR req.key = .error e → e.isNotFound = false →
      (GetFile opts st env now req).loaderCalls = 0 ∧
      (GetFile opts st env now req).delta.errors = 1 ∧
      (GetFile opts st env now req).err.isSome = true ∧
      (GetURL opts st now req params).loaderCalls = 0 ∧
      (GetURL opts st now req params).delta.errors = 1 ∧
      (GetURL opts st now req params).err.isSome = true) ∧
    (∀ e : GoErr, st.metaR req.key = .error e → e.isNotFound = true →
      (GetFile opts st env now req).loaderCalls = 1 ∧
      (GetURL opts st now req params).loaderCalls = 1) := by
  refine ⟨?_, ?_, ?_⟩
  · intro m hm
    unfold GetFile GetURL
    simp only [hm]
    constructor <;> (repeat' split) <;> rfl
  · intro e he hnf
    unfold GetFile GetURL
    simp [he, hnf]
  · intro e he hnf
    unfold GetFile GetURL
    simp only [he, hnf, Bool.not_true, Bool.false_eq_true, if_false]
    constructor <;> (repeat' split) <;> rfl

/-- Witness for C6: hit, backend outage, and miss, at concrete backends. -/
theorem loader_only_on_miss_witness :
    (stHit.metaR "key" = .ok metaA ∧
      (GetFile {} stHit {} 0 reqA).loaderCalls = 0 ∧
      (GetURL {} stHit 0 reqA {}).loaderCalls = 0) ∧
    (stDown.metaR "key" = .error (.base "boom") ∧
      GoErr.isNotFound (.base "boom") = false ∧
      (GetFile {} stDown {} 0 reqA).loaderCalls = 0 ∧
      (GetFile {} stDown {} 0 reqA).delta.errors = 1 ∧
      (GetURL {} stDown 0 reqA {}).loaderCalls = 0 ∧
      (GetURL {} stDown 0 reqA {}).delta.errors = 1) ∧
    (stMiss.metaR "key" = .error .notFound ∧
      (GetFile {} stMiss {} 0 reqA).loaderCalls = 1 ∧
      (GetURL {} stMiss 0 reqA {}).loaderCalls = 1) :=
  ⟨⟨rfl, (loader_only_on_miss {} stHit {} 0 reqA {}).1 metaA rfl⟩,
    ⟨rfl, rfl,
      ((loader_only_on_miss {} stDown {} 0 reqA {}).2.1 (.base "boom") rfl rfl).1,
      ((loader_only_on_miss {} stDown {} 0 reqA {}).2.1 (.base "boom") rfl rfl).2.1,
      ((loader_only_on_miss {} stDown {} 0 reqA {}).2.1 (.base "boom") rfl rfl).2.2.2.1,
      ((loader_only_on_miss {} stDown {} 0 reqA {}).2.1 (.base "boom") rfl rfl).2.2.2.2.1⟩,
    ⟨rfl, (loader_only_on_miss {} stMiss {} 0 reqA {}).2.2 .notFound rfl rfl⟩⟩

/-- A map write makes the written key readable with the written value. -/
theorem getKey_setKey (l : List (String × MVal)) (k : String) (v : MVal) :
    getKey (setKey l k v) k = some v := by
  induction l with
  | nil => simp [setKey, getKey]
  | cons p rest ih =>
    obtain ⟨k', v'⟩ := p
    by_cases h : k' = k <;> simp [setKey, getKey, h, ih]

/-- C2: on a miss that completes successfully, the loader's bytes are
exactly the bytes handed to `Store.Put` and exactly the bytes readable from
the stream `GetFile` returns to its caller. -/
theorem getFile_duplication (opts : Options) (st : StoreModel) (env : OsEnv)
    (now : Time) (req : GetRequest) (content : Bytes) (lmeta : FileMeta)
    (e : GoErr) (hm : st.metaR req.key = .error e) (hnf : e.isNotFound = true)
    (hld : req.loader = .ok (content, lmeta)) (htmp : env.tmpErr = none)
    (hseek : env.seekErr = none) (hclose : env.closeErr = none)
    (hput : ∀ m2, st.putR req.key m2 content = none) :
    (GetFile opts st env now req).puts.map PutCall.content = [content] ∧
    (GetFile opts st env now req).rd = some content ∧
    (GetFile opts st env now req).err = none := by
  unfold GetFile
  simp [hm, hnf, hld, htmp, hseek, hclose, hput, TempFile.readAll]

/-- Witness for C2: on `stMiss` the two loader bytes are both stored and
returned. -/
theorem getFile_duplication_witness :
    (stMiss.metaR "key" = .error .notFound ∧
      GoErr.isNotFound .notFound = true ∧
      reqA.loader = .ok ([104, 105], metaA) ∧
      (∀ m2, stMiss.putR "key" m2 [104, 105] = none)) ∧
    ((GetFile {} stMiss {} 0 reqA).puts.map PutCall.content = [[104, 105]] ∧
      (GetFile {} stMiss {} 0 reqA).rd = some [104, 105] ∧
      (GetFile {} stMiss {} 0 reqA).err = none) :=
  ⟨⟨rfl, rfl, rfl, fun _ => rfl⟩,
    getFile_duplication {} stMiss {} 0 reqA [104, 105] metaA .notFound
      rfl rfl rfl rfl rfl rfl (fun _ => rfl)⟩

/-- C4: on a successful miss, both `GetFile` and `GetURL` hand `Store.Put` a
`FileMeta` whose `_invalidate_at` entry is `now + req.TTL` in the timestamp
format, and the `FileMeta` returned to the caller carries that entry. -/
theorem miss_injects_expiration (opts : Options) (st : StoreModel)
    (env : OsEnv) (now : Time) (req : GetRequest) (params : GetURLParams)
    (content : Bytes) (lmeta : FileMeta) (e : GoErr)
    (hm : st.metaR req.key = .error e) (hnf : e.isNotFound = true)
    (hld : req.loader = .ok (content, lmeta)) (htmp : env.tmpErr = none)
    (hseek : env.seekErr = none) (hclose : env.closeErr = none)
    (hput : ∀ m2, st.putR req.key m2 content = none) :
    ((GetFile opts st env now req).puts.map fun p => p.meta.invalidateAt) =
      [some (formatTime (now + req.ttl))] ∧
    (GetFile opts st env now req).meta.invalidateAt =
      some (formatTime (now + req.ttl)) ∧
    ((GetURL opts st now req params).puts.map fun p => p.meta.invalidateAt) =
      [some (formatTime (now + req.ttl))] ∧
    (∀ u, st.getURLR req.key params = .ok u →
      (GetURL opts st now req params).meta.invalidateAt =
        some (formatTime (now + req.ttl))) := by
  refine ⟨?_, ?_, ?_, ?_⟩
  · unfold GetFile
    simp [hm, hnf, hld, htmp, hseek, hclose, hput, FileMeta.invalidateAt,
      getKey_setKey]
  · unfold GetFile
    simp [hm, hnf, hld, htmp, hseek, hclose, hput, FileMeta.invalidateAt,
      getKey_setKey]
  · unfold GetURL
    simp only [hm, hnf, Bool.not_true, Bool.false_eq_true, if_false, hld]
    (repeat' split) <;> simp [FileMeta.invalidateAt, getKey_setKey]
  · intro u hu
    unfold GetURL
    simp [hm, hnf, hld, hput, hu, FileMeta.invalidateAt, getKey_setKey]

/-- Witness for C4: at `stMiss`, `now = 7`, TTL 100, the stored and returned
metadata carry `_invalidate_at = 107`. -/
theorem miss_injects_expiration_witness :
    (stMiss.metaR "key" = .error .notFound ∧
      reqA.loader = .ok ([104, 105], metaA) ∧
      (∀ m2, stMiss.putR "key" m2 [104, 105] = none)) ∧
    (((GetFile {} stMiss {} 7 reqA).puts.map fun p => p.meta.invalidateAt) =
        [some (formatTime (7 + 100))] ∧
      (GetFile {} stMiss {} 7 reqA).meta.invalidateAt =
        some (formatTime (7 + 100)) ∧
      ((GetURL {} stMiss 7 reqA {}).puts.map fun p => p.meta.invalidateAt) =
        [some (formatTime (7 + 100))] ∧
      (∀ u, stMiss.getURLR "key" {} = .ok u →
        (GetURL {} stMiss 7 reqA {}).meta.invalidateAt =
          some (formatTime (7 + 100)))) :=
  ⟨⟨rfl, rfl, fun _ => rfl⟩,
    miss_injects_expiration {} stMiss {} 7 reqA {} [104, 105] metaA .notFound
      rfl rfl rfl rfl rfl rfl (fun _ => rfl)⟩

/-! ### Errors counting (C7) and TTL extension (C5) -/

/-- A backend that reports the key absent and then fails the `Put`. -/
def stPutFail : StoreModel :=
  { stMiss with putR := fun _ _ _ => some (.base "put failed") }

/-- A backend that finds the key but fails the content `Get`. -/
def stGetFail : StoreModel :=
  { stHit with getR := fun _ => .error (.base "get failed") }

/-- A backend that finds the key but fails the presigned-URL call. -/
def stURLFail : StoreModel :=
  { stHit with getURLR := fun _ _ => .error (.base "presign failed") }

/-- Counterexample to C7: on `stPutFail`, `GetFile` meets a backend `Put`
failure, surfaces it — and leaves the Errors delta at 0. -/
theorem errors_on_backend_failure_cex :
    (GetFile {} stPutFail {} 0 reqA).err =
      some (.wrap "put file into storage" (.base "put failed")) ∧
    (GetFile {} stPutFail {} 0 reqA).delta.errors = 0 := ⟨rfl, rfl⟩

/-- C7 (amended): unexpected backend failures are surfaced, and they
increment Errors on the `Meta`, `Get` and `GetURL` paths and on `GetURL`'s
`Put` — but `GetFile`'s `Put` failure and a TTL-extension failure on a hit
are surfaced without incrementing Errors; a NotFound `Meta` result alone
never increments Errors. -/
theorem errors_on_backend_failure (opts : Options) (st : StoreModel)
    (env : OsEnv) (now : Time) (req : GetRequest) (params : GetURLParams) :
    (∀ e : GoErr, st.metaR req.key = .error e → e.isNotFound = false →
      (GetFile opts st env now req).delta.errors = 1 ∧
      (GetFile opts st env now req).err.isSome = true ∧
      (GetURL opts st now req params).delta.errors = 1 ∧
      (GetURL opts st now req params).err.isSome = true) ∧
    (∀ (m : FileMeta) (e : GoErr), st.metaR req.key = .ok m →
      st.getR req.key = .error e →
      (GetFile opts st env now req).delta.errors = 1 ∧
      (GetFile opts st env now req).err.isSome = true) ∧
    (∀ (m : FileMeta) (e : GoErr), st.metaR req.key = .ok m →
      (extendTTL opts st now req.key req.ttl m).err = none →
      st.getURLR req.key params = .error e →
      (GetURL opts st now req params).delta.errors = 1 ∧
      (GetURL opts st now req params).err.isSome = true) ∧
    (∀ (e pe : GoErr) (content : Bytes) (lmeta : FileMeta),
      st.metaR req.key = .error e → e.isNotFound = true →
      req.loader = .ok (content, lmeta) →
      (∀ m2, st.putR req.key m2 content = some pe) →
      (GetURL opts st now req params).delta.errors = 1 ∧
      (GetURL opts st now req params).err.isSome = true) ∧
    (∀ (e pe : GoErr) (content : Bytes) (lmeta : FileMeta),
      st.metaR req.key = .error e → e.isNotFound = true →
      req.loader = .ok (content, lmeta) → env.tmpErr = none →
      (∀ m2, st.putR req.key m2 content = some pe) →
      (GetFile opts st env now req).delta.errors = 0 ∧
      (GetFile opts st env now req).err.isSome = true) ∧
    (∀ (m : FileMeta) (content : Bytes) (e2 : GoErr),
      st.metaR req.key = .ok m → st.getR req.key = .ok content →
      (extendTTL opts st now req.key req.ttl m).err = some e2 →
      (GetFile opts st env now req).delta.errors = 0 ∧
      (GetFile opts st env now req).err.isSome = true) ∧
    (∀ (e : GoErr) (content : Bytes) (lmeta : FileMeta),
      st.metaR req.key = .error e → e.isNotFound = true →
      req.loader = .ok (content, lmeta) → env.tmpErr = none →
      env.seekErr = none → env.closeErr = none →
      (∀ m2, st.putR req.key m2 content = none) →
      (GetFile opts st env now req).delta.errors = 0) ∧
    (∀ (e : GoErr) (content : Bytes) (lmeta : FileMeta) (u : String),
      st.metaR req.key = .error e → e.isNotFound = true →
      req.loader = .ok (content, lmeta) →
      (∀ m2, st.putR req.key m2 content = none) →
      st.getURLR req.key params = .ok u →
      (GetURL opts st now req params).delta.errors = 0) := by
  refine ⟨?_, ?_, ?_, ?_, ?_, ?_, ?_, ?_⟩
  · intro e he hnf
    unfold GetFile GetURL
    simp [he, hnf]
  · intro m e hm hg
    unfold GetFile
    simp [hm, hg]
  · intro m e hm hext hu
    unfold GetURL
    simp [hm, hext, hu]
  · intro e pe content lmeta hm hnf hld hput
    unfold GetURL
    simp [hm, hnf, hld, hput]
  · intro e pe content lmeta hm hnf hld htmp hput
    unfold GetFile
    simp [hm, hnf, hld, htmp, hput]
  · intro m content e2 hm hg hext
    unfold GetFile
    simp [hm, hg, hext]
  · intro e content lmeta hm hnf hld htmp hseek hclose hput
    unfold GetFile
    simp [hm, hnf, hld, htmp, hseek, hclose, hput]
  · intro e content lmeta u hm hnf hld hput hu
    unfold GetURL
    simp [hm, hnf, hld, hput, hu]

/-- Cache options with TTL extension on hit enabled. -/
def optsExt : Options := { extendTTL := true }

/-- Witness for the amended C7, instantiating every conjunct at a concrete
backend that realizes its hypotheses. -/
theorem errors_on_backend_failure_witness :
    ((GetFile {} stDown {} 0 reqA).delta.errors = 1 ∧
      (GetFile {} stDown {} 0 reqA).err.isSome = true ∧
      (GetURL {} stDown 0 reqA {}).delta.errors = 1 ∧
      (GetURL {} stDown 0 reqA {}).err.isSome = true) ∧
    ((GetFile {} stGetFail {} 0 reqA).delta.errors = 1 ∧
      (GetFile {} stGetFail {} 0 reqA).err.isSome = true) ∧
    ((GetURL {} stURLFail 0 reqA {}).delta.errors = 1 ∧
      (GetURL {} stURLFail 0 reqA {}).err.isSome = true) ∧
    ((GetURL {} stPutFail 0 reqA {}).delta.errors = 1 ∧
      (GetURL {} stPutFail 0 reqA {}).err.isSome = true) ∧
    ((GetFile {} stPutFail {} 0 reqA).delta.errors = 0 ∧
      (GetFile {} stPutFail {} 0 reqA).err.isSome = true) ∧
    ((GetFile optsExt stHit {} 0 reqA).delta.errors = 0 ∧
      (GetFile optsExt stHit {} 0 reqA).err.isSome = true) ∧
    (GetFile {} stMiss {} 0 reqA).delta.errors = 0 ∧
    (GetURL {} stMiss 0 reqA {}).delta.errors = 0 :=
  ⟨(errors_on_backend_failure {} stDown {} 0 reqA {}).1 (.base "boom") rfl rfl,
    (errors_on_backend_failure {} stGetFail {} 0 reqA {}).2.1 metaA
      (.base "get failed") rfl rfl,
    (errors_on_backend_failure {} stURLFail {} 0 reqA {}).2.2.1 metaA
      (.base "presign failed") rfl rfl rfl,
    (errors_on_backend_failure {} stPutFail {} 0 reqA {}).2.2.2.1 .notFound
      (.base "put failed") [104, 105] metaA rfl rfl rfl (fun _ => rfl),
    (errors_on_backend_failure {} stPutFail {} 0 reqA {}).2.2.2.2.1 .notFound
      (.base "put failed") [104, 105] metaA rfl rfl rfl rfl (fun _ => rfl),
    (errors_on_backend_failure optsExt stHit {} 0 reqA {}).2.2.2.2.2.1 metaA
      [104, 105] (.wrap "parse invalidate_at time" (.base "time parse"))
      rfl rfl rfl,
    (errors_on_backend_failure {} stMiss {} 0 reqA {}).2.2.2.2.2.2.1 .notFound
      [104, 105] metaA rfl rfl rfl rfl rfl rfl (fun _ => rfl),
    (errors_on_backend_failure {} stMiss {} 0 reqA {}).2.2.2.2.2.2.2 .notFound
      [104, 105] metaA "file-url" rfl rfl rfl (fun _ => rfl) rfl⟩

/-- Sample hit metadata that already carries a deadline of 500. -/
def metaB : FileMeta :=
  { metaA with meta := some [("_invalidate_at", .time 500)] }

/-- C5 (code bug): with `ExtendTTL` on and a hit whose metadata lacks
`_invalidate_at`, `extendTTL` seeds the map but then parses the stale empty
`v`, so it always returns a parse error and never calls `UpdateMeta` —
while, as the claim says, an existing deadline 500 is advanced to 600
(from the deadline, not from `now = 1000`), persisted, and returned without
error. -/
theorem extendTTL_seed_error :
    (extendTTL optsExt stHit 1000 "key" 100 metaA).err =
      some (.wrap "parse invalidate_at time" (.base "time parse")) ∧
    (extendTTL optsExt stHit 1000 "key" 100 metaA).updates = [] ∧
    (GetFile optsExt stHit {} 1000 reqA).err =
      some (.wrap "extend file TTL"
        (.wrap "parse invalidate_at time" (.base "time parse"))) ∧
    (GetFile optsExt stHit {} 1000 reqA).updates = [] ∧
    (extendTTL optsExt stHit 1000 "key" 100 metaB).err = none ∧
    (extendTTL optsExt stHit 1000 "key" 100 metaB).meta.invalidateAt =
      some (.time 600) ∧
    (extendTTL optsExt stHit 1000 "key" 100 metaB).updates.length = 1 :=
  ⟨rfl, rfl, rfl, rfl, rfl, rfl, rfl⟩

/-! ### Key prefixing (C8) -/

/-- Splitting a list that opens with the separator yields an empty head part. -/
theorem splitSep_cons_sep (k : List Char) :
    splitSep ('!' :: '!' :: k) = [] :: splitSep k := rfl

/-- Splitting a list whose first two characters are not the separator keeps
the head character attached to the first part. -/
theorem splitSep_cons_head (c1 c2 : Char) (k : List Char)
    (h : ¬(c1 = '!' ∧ c2 = '!')) :
    splitSep (c1 :: c2 :: k) =
      match splitSep (c2 :: k) with
      | [] => [[c1]]
      | a :: as => (c1 :: a) :: as := by
  conv_lhs => rw [splitSep.eq_def]
  simp [h]

/-- A list free of `!` contains no separator and splits into itself. -/
theorem splitSep_no_sep : ∀ l : List Char, '!' ∉ l → splitSep l = [l]
  | [], _ => rfl
  | [_], _ => rfl
  | c1 :: c2 :: rest, h => by
    have h1 : ¬(c1 = '!' ∧ c2 = '!') := fun ⟨e1, _⟩ => h (by simp [e1])
    have h2 : '!' ∉ c2 :: rest := fun m => h (List.mem_cons_of_mem _ m)
    rw [splitSep_cons_head c1 c2 rest h1, splitSep_no_sep (c2 :: rest) h2]

/-- Prepending a `!`-free part plus the separator adds one leading part. -/
theorem splitSep_append : ∀ p k : List Char, '!' ∉ p →
    splitSep (p ++ '!' :: '!' :: k) = p :: splitSep k
  | [], k, _ => splitSep_cons_sep k
  | [c], k, h => by
    have hc : ¬(c = '!' ∧ '!' = '!') := fun ⟨e1, _⟩ => h (by simp [e1])
    simp only [List.cons_append, List.nil_append]
    rw [splitSep_cons_head c '!' ('!' :: k) hc, splitSep_cons_sep k]
  | c :: d :: p', k, h => by
    have hc : ¬(c = '!' ∧ d = '!') := fun ⟨e1, _⟩ => h (by simp [e1])
    have h2 : '!' ∉ d :: p' := fun m => h (List.mem_cons_of_mem _ m)
    have ih := splitSep_append (d :: p') k h2
    simp only [List.cons_append] at ih ⊢
    rw [splitSep_cons_head c d _ hc, ih]

/-- C8: with a non-empty prefix (and no `!` in prefix or key, so that the
separator occurs exactly once), the adapter writes key `k` to backend key
`pfx ++ "!!" ++ k`, and the reported key strips the prefix and separator
back off, so `Keys` reports the original key. -/
theorem s3_key_roundtrip (pfx k : String) (hp : pfx ≠ "")
    (hbp : '!' ∉ pfx.data) (hbk : '!' ∉ k.data) :
    s3key pfx k = pfx ++ "!!" ++ k ∧
    s3unkey pfx (s3key pfx k) = k ∧
    s3Keys pfx [s3key pfx k] = [k] := by
  have hkey : s3key pfx k = pfx ++ "!!" ++ k := by simp [s3key, hp]
  have hdata : (pfx ++ "!!" ++ k).data = pfx.data ++ '!' :: '!' :: k.data := by
    simp [String.data_append]
  have hun : s3unkey pfx (pfx ++ "!!" ++ k) = k := by
    unfold s3unkey
    rw [if_neg hp, hdata, splitSep_append pfx.data k.data hbp,
      splitSep_no_sep k.data hbk]
  refine ⟨hkey, by rw [hkey, hun], ?_⟩
  simp [s3Keys, hkey, hun]

/-- Witness for C8 at the concrete scenario: prefix `p`, key `key`. -/
theorem s3_key_roundtrip_witness :
    ("p" ≠ "" ∧ '!' ∉ "p".data ∧ '!' ∉ "key".data) ∧
    (s3key "p" "key" = "p" ++ "!!" ++ "key" ∧
      s3unkey "p" (s3key "p" "key") = "key" ∧
      s3Keys "p" [s3key "p" "key"] = ["key"]) ∧
    s3key "p" "key" = "p!!key" ∧ s3unkey "p" "p!!key" = "key" :=
  ⟨⟨by decide, by decide, by decide⟩,
    s3_key_roundtrip "p" "key" (by decide) (by decide) (by decide),
    rfl, rfl⟩

end Fcache
